import Mathlib

/-!
Verification development for a redis-backed cache core.

The code under verification consists of two python modules:

* `exercise.py` — a `Cache` class over a redis client: `store` writes a
  payload under a fresh UUID key, `get` reads it back with an optional
  coercion, `count_calls` and `call_history` are decorators instrumenting a
  method with an invocation counter and parallel input/output history lists,
  and `replay` renders a textual trace from that instrumentation.
* `web.py` — `cache_with_expiration`, a decorator adding a per-URL access
  counter and a TTL-bounded cache entry in front of a slow page fetch
  (`get_page`).

The embedding models the redis backend as an explicit state (string keys to
byte-string values with optional absolute expiry times, plus list keys to
lists of byte strings, plus a logical clock).  Byte strings are modelled as
Lean `String`s (every payload the code handles is utf-8 representable, and
python's `bytes.decode` is then the identity).  Python-level values are the
closed variant type `PyVal`; fallible python code returns `Except`, and every
operation returns the post-state even on failure, mirroring the fact that a
python exception does not roll back redis writes already performed.
-/

/-! ## Decimal numerals

Redis stores counters as decimal byte strings: `INCR` parses the stored
bytes as an integer and writes back the decimal rendering, and python's
`int(bytes)` parses the same form.  We embed rendering and parsing
explicitly (fuel-based structural recursion so that everything reduces by
evaluation) and prove the parse/render round trip used throughout.
-/

/-- Decimal digits of a natural number, least significant first.  The first
argument is recursion fuel; any fuel exceeding the number suffices. -/
def digitsRevF : Nat → Nat → List Nat
  | 0, _ => []
  | f + 1, n => if n < 10 then [n] else n % 10 :: digitsRevF f (n / 10)

/-- The ASCII character of a decimal digit. -/
def digitChar (d : Nat) : Char := Char.ofNat (48 + d)

/-- Decimal rendering of a natural number, as python `str` produces it. -/
def natToStr (n : Nat) : String :=
  String.mk (((digitsRevF (n + 1) n).reverse).map digitChar)

/-- Decimal rendering of an integer (python `str` of an `int`); ASCII 45
is the minus sign. -/
def intToStr : Int → String
  | Int.ofNat n => natToStr n
  | Int.negSucc n => String.mk (Char.ofNat 45 :: (natToStr (n + 1)).data)

/-- Read a run of decimal digit characters, most significant first, onto an
accumulator; any non-digit character rejects the whole input. -/
def readNatChars : List Char → Nat → Option Nat
  | [], acc => some acc
  | c :: cs, acc =>
    if 48 ≤ c.toNat ∧ c.toNat ≤ 57 then readNatChars cs (10 * acc + (c.toNat - 48))
    else none

/-- Parse a decimal integer from a byte string: an optional leading minus
sign followed by at least one digit.  This is the integer format accepted
both by redis `INCR` and by python `int()` on the strings this code
produces; anything else is a parse failure (redis raises an error, python
raises `ValueError`). -/
def parseIntStr (s : String) : Option Int :=
  match s.data with
  | [] => none
  | c :: cs =>
    if c = Char.ofNat 45 then
      match cs with
      | [] => none
      | _ :: _ => (readNatChars cs 0).map (fun m => -(m : Int))
    else (readNatChars (c :: cs) 0).map (fun m => (m : Int))

/-- Value of a digit list, most significant first, onto an accumulator. -/
def valOfDigits : List Nat → Nat → Nat
  | [], acc => acc
  | d :: ds, acc => valOfDigits ds (10 * acc + d)

theorem valOfDigits_append (l₁ l₂ : List Nat) (acc : Nat) :
    valOfDigits (l₁ ++ l₂) acc = valOfDigits l₂ (valOfDigits l₁ acc) := by
  induction l₁ generalizing acc with
  | nil => rfl
  | cons d ds ih => simp [valOfDigits, ih]

theorem digitsRevF_val (f : Nat) :
    ∀ n acc, n < f →
      valOfDigits ((digitsRevF f n).reverse) acc
        = acc * 10 ^ (digitsRevF f n).length + n := by
  induction f with
  | zero => intro n acc h; omega
  | succ f ih =>
    intro n acc h
    by_cases h10 : n < 10
    · simp [digitsRevF, h10, valOfDigits]; ring
    · have hdiv : n / 10 < n := Nat.div_lt_self (by omega) (by omega)
      have hf : n / 10 < f := by omega
      simp only [digitsRevF, if_neg h10, List.reverse_cons, List.length_cons]
      rw [valOfDigits_append, ih (n / 10) acc hf]
      simp only [valOfDigits]
      rw [pow_succ, ← mul_assoc]
      have hmod := Nat.div_add_mod n 10
      generalize acc * 10 ^ (digitsRevF f (n / 10)).length = a
      omega

theorem digitsRevF_lt10 (f : Nat) : ∀ n d, d ∈ digitsRevF f n → d < 10 := by
  induction f with
  | zero => intro n d h; simp [digitsRevF] at h
  | succ f ih =>
    intro n d h
    by_cases h10 : n < 10
    · simp [digitsRevF, h10] at h; omega
    · simp only [digitsRevF, if_neg h10, List.mem_cons] at h
      rcases h with h | h
      · omega
      · exact ih _ _ h

theorem digitsRevF_ne_nil (f n : Nat) : digitsRevF (f + 1) n ≠ [] := by
  by_cases h10 : n < 10 <;> simp [digitsRevF, h10]

theorem digitChar_toNat {d : Nat} (h : d < 10) : (digitChar d).toNat = 48 + d := by
  interval_cases d <;> decide

theorem readNatChars_map_digitChar :
    ∀ ds acc, (∀ d ∈ ds, d < 10) →
      readNatChars (ds.map digitChar) acc = some (valOfDigits ds acc) := by
  intro ds
  induction ds with
  | nil => intro acc _; rfl
  | cons d ds ih =>
    intro acc hd
    have hd0 : d < 10 := hd d (List.mem_cons_self d ds)
    have ht := digitChar_toNat hd0
    simp only [List.map_cons, readNatChars, ht, valOfDigits]
    rw [if_pos (by omega)]
    have : 48 + d - 48 = d := by omega
    rw [this]
    exact ih _ (fun x hx => hd x (List.mem_cons_of_mem d hx))

theorem natToStr_data (n : Nat) :
    (natToStr n).data = ((digitsRevF (n + 1) n).reverse).map digitChar := rfl

theorem readNatChars_natToStr (n : Nat) :
    readNatChars (natToStr n).data 0 = some n := by
  rw [natToStr_data]
  rw [readNatChars_map_digitChar _ 0
    (fun d hd => digitsRevF_lt10 (n + 1) n d (List.mem_reverse.mp hd))]
  rw [digitsRevF_val (n + 1) n 0 (Nat.lt_succ_self n)]
  simp

theorem natToStr_head (n : Nat) :
    ∃ d cs, (natToStr n).data = digitChar d :: cs ∧ d < 10 := by
  rw [natToStr_data]
  rcases hrev : (digitsRevF (n + 1) n).reverse with _ | ⟨d, rest⟩
  · exact absurd (List.reverse_eq_nil_iff.mp hrev) (digitsRevF_ne_nil n n)
  · refine ⟨d, rest.map digitChar, by simp, ?_⟩
    have : d ∈ (digitsRevF (n + 1) n).reverse := by rw [hrev]; exact List.mem_cons_self d rest
    exact digitsRevF_lt10 (n + 1) n d (List.mem_reverse.mp this)

theorem digitChar_ne_minus {d : Nat} (h : d < 10) : ¬ digitChar d = Char.ofNat 45 := by
  intro he
  have h1 := digitChar_toNat h
  have h2 : (Char.ofNat 45).toNat = 45 := by decide
  rw [he, h2] at h1
  omega

theorem parseIntStr_natToStr (n : Nat) : parseIntStr (natToStr n) = some (n : Int) := by
  obtain ⟨d, cs, hdata, hd⟩ := natToStr_head n
  have hread := readNatChars_natToStr n
  rw [hdata] at hread
  simp [parseIntStr, hdata, if_neg (digitChar_ne_minus hd), hread]

/-- Round trip: parsing the decimal rendering of an integer recovers it. -/
theorem parseIntStr_intToStr (i : Int) : parseIntStr (intToStr i) = some i := by
  cases i with
  | ofNat n => exact parseIntStr_natToStr n
  | negSucc n =>
    obtain ⟨d, cs, hdata, hd⟩ := natToStr_head (n + 1)
    unfold intToStr parseIntStr
    simp only [hdata, if_pos rfl]
    rw [← hdata, readNatChars_natToStr]
    simp [Int.negSucc_eq]

/-! ## Python values and their redis byte encoding

`Cache.store` accepts `Union[str, bytes, int, float]`.  The redis client
encodes a `str` as its utf-8 bytes, passes `bytes` through verbatim, and
renders `int`/`float` as their decimal text.  We model bytes as `String`
(all payloads here are utf-8 representable) and floats by their python
`repr` string, since the code never computes with them. -/

/-- Backend byte strings, modelled as utf-8 text. -/
abbrev Bytes := String

/-- The closed variant of payloads `Cache.store` accepts. -/
inductive PyVal where
  | pstr (s : String)
  | pbytes (b : Bytes)
  | pint (n : Int)
  | pfloat (r : String)
deriving DecidableEq

/-- The byte string the redis client writes for a payload (`SET`/`RPUSH`
argument encoding). -/
def serializeVal : PyVal → Bytes
  | PyVal.pstr s => s
  | PyVal.pbytes b => b
  | PyVal.pint n => intToStr n
  | PyVal.pfloat r => r

/-- ASCII apostrophe, used by python `repr` of strings. -/
def quoteChar : Char := Char.ofNat 39

/-- Python `repr` of a payload, as it appears inside `str(args)`. -/
def pyReprVal : PyVal → String
  | PyVal.pstr s => String.mk (quoteChar :: (s.data ++ [quoteChar]))
  | PyVal.pbytes b => String.mk (Char.ofNat 98 :: quoteChar :: (b.data ++ [quoteChar]))
  | PyVal.pint n => intToStr n
  | PyVal.pfloat r => r

/-- Python `str(args)` for the positional-argument tuple: `"()"` when empty,
`"(x,)"` for one argument, `"(x, y, ...)"` otherwise. -/
def tupleRepr (args : List PyVal) : String :=
  match args with
  | [] => "()"
  | [a] => ("(") ++ pyReprVal a ++ (",)")
  | _ => ("(") ++ String.intercalate (", ") (args.map pyReprVal) ++ (")")

/-! ## The redis backend state

An explicit model of the slice of redis this code uses: a map from keys to
byte-string values each with an optional absolute expiry instant, a map from
keys to lists of byte strings, and a logical clock `now`.  `GET` on a key
whose expiry has passed behaves as if the key were absent — expiry is the
backend's concern, observed by the core only as a miss.  Updates cons onto
association lists; lookup takes the first (most recent) binding. -/

structure RedisState where
  now : Nat
  strings : List (String × Bytes × Option Nat)
  lists : List (String × List Bytes)
deriving DecidableEq

/-- First binding for a key in an association list. -/
def assocFind {α : Type} : List (String × α) → String → Option α
  | [], _ => none
  | (k₀, v) :: rest, k => if k₀ = k then some v else assocFind rest k

def RedisState.empty : RedisState := ⟨0, [], []⟩

/-- Raw stored entry (value and optional expiry) for a string key. -/
def strEntry (st : RedisState) (k : String) : Option (Bytes × Option Nat) :=
  assocFind st.strings k

/-- Redis `GET`: the stored value, unless absent or past its expiry. -/
def rget (st : RedisState) (k : String) : Option Bytes :=
  match strEntry st k with
  | none => none
  | some (v, none) => some v
  | some (v, some exp) => if st.now < exp then some v else none

/-- Redis `SET` (clears any expiry, as redis `SET` does). -/
def rset (st : RedisState) (k : String) (v : Bytes) : RedisState :=
  { st with strings := (k, v, none) :: st.strings }

/-- Redis `SETEX`: set with a time-to-live, stored as absolute expiry. -/
def rsetex (st : RedisState) (k : String) (ttl : Nat) (v : Bytes) : RedisState :=
  { st with strings := (k, v, some (st.now + ttl)) :: st.strings }

/-- Redis `INCR`: an absent (or expired) key becomes `1`; a live integer
value is incremented in place, keeping its expiry; a live non-integer value
is an error and the state is unchanged (a redis error reply). -/
def rincr (st : RedisState) (k : String) : RedisState × Except String Int :=
  match rget st k with
  | none => (rset st k (intToStr 1), Except.ok 1)
  | some v =>
    match parseIntStr v with
    | none => (st, Except.error ("ERR value is not an integer"))
    | some n =>
      ({ st with strings := (k, intToStr (n + 1), (strEntry st k).bind (fun p => p.2)) :: st.strings },
       Except.ok (n + 1))

/-- Redis `RPUSH`: append one element at the tail of the list at a key. -/
def rpush (st : RedisState) (k : String) (v : Bytes) : RedisState :=
  { st with lists := (k, ((assocFind st.lists k).getD []) ++ [v]) :: st.lists }

/-- Redis `LRANGE key 0 -1`: the whole list at a key (absent key is empty). -/
def lrangeAll (st : RedisState) (k : String) : List Bytes :=
  (assocFind st.lists k).getD []

/-- Redis `FLUSHDB`: delete every key. -/
def flushAll (st : RedisState) : RedisState :=
  { st with strings := [], lists := [] }

/-- Time passing: the logical clock advances, nothing else changes.  An
entry whose expiry is reached thereby becomes unreadable. -/
def advanceTime (st : RedisState) (t : Nat) : RedisState :=
  { st with now := st.now + t }

/-! ### Basic state lemmas -/

theorem assocFind_cons_self {α : Type} (l : List (String × α)) (k : String) (v : α) :
    assocFind ((k, v) :: l) k = some v := by
  simp [assocFind]

theorem assocFind_cons_ne {α : Type} (l : List (String × α)) {k k' : String} (v : α)
    (h : k ≠ k') : assocFind ((k, v) :: l) k' = assocFind l k' := by
  simp [assocFind, h]

theorem rget_rset_self (st : RedisState) (k : String) (v : Bytes) :
    rget (rset st k v) k = some v := by
  simp [rget, rset, strEntry, assocFind_cons_self]

theorem rget_rset_ne (st : RedisState) {k k' : String} (v : Bytes) (h : k ≠ k') :
    rget (rset st k v) k' = rget st k' := by
  simp [rget, rset, strEntry, assocFind_cons_ne _ _ h]

theorem rget_rsetex_self (st : RedisState) (k : String) {ttl : Nat} (v : Bytes)
    (h : 0 < ttl) : rget (rsetex st k ttl v) k = some v := by
  simp [rget, rsetex, strEntry, assocFind_cons_self]
  omega

theorem rget_rsetex_ne (st : RedisState) {k k' : String} (ttl : Nat) (v : Bytes)
    (h : k ≠ k') : rget (rsetex st k ttl v) k' = rget st k' := by
  simp [rget, rsetex, strEntry, assocFind_cons_ne _ _ h]

theorem strEntry_rsetex_ne (st : RedisState) {k k' : String} (ttl : Nat) (v : Bytes)
    (h : k ≠ k') : strEntry (rsetex st k ttl v) k' = strEntry st k' := by
  simp [rsetex, strEntry, assocFind_cons_ne _ _ h]

theorem rget_rpush (st : RedisState) (k : String) (v : Bytes) (k' : String) :
    rget (rpush st k v) k' = rget st k' := by
  simp [rget, rpush, strEntry]

theorem strEntry_rpush (st : RedisState) (k : String) (v : Bytes) (k' : String) :
    strEntry (rpush st k v) k' = strEntry st k' := by
  simp [rpush, strEntry]

theorem lrangeAll_rpush_self (st : RedisState) (k : String) (v : Bytes) :
    lrangeAll (rpush st k v) k = lrangeAll st k ++ [v] := by
  simp [lrangeAll, rpush, assocFind_cons_self]

theorem lrangeAll_rpush_ne (st : RedisState) {k k' : String} (v : Bytes) (h : k ≠ k') :
    lrangeAll (rpush st k v) k' = lrangeAll st k' := by
  simp [lrangeAll, rpush, assocFind_cons_ne _ _ h]

theorem lrangeAll_rset (st : RedisState) (k : String) (v : Bytes) (k' : String) :
    lrangeAll (rset st k v) k' = lrangeAll st k' := by
  simp [lrangeAll, rset]

theorem lrangeAll_rsetex (st : RedisState) (k : String) (ttl : Nat) (v : Bytes) (k' : String) :
    lrangeAll (rsetex st k ttl v) k' = lrangeAll st k' := by
  simp [lrangeAll, rsetex]

theorem now_rset (st : RedisState) (k : String) (v : Bytes) : (rset st k v).now = st.now := rfl

theorem now_rsetex (st : RedisState) (k : String) (ttl : Nat) (v : Bytes) :
    (rsetex st k ttl v).now = st.now := rfl

theorem now_rpush (st : RedisState) (k : String) (v : Bytes) : (rpush st k v).now = st.now := rfl

/-! ## `exercise.py`: the instrumented object store

A python bound method `(self, *args, **kwargs) -> value` acting on the
shared redis client is embedded as a function from the positional-argument
list and the backend state to the post-state and a result-or-exception.
The post-state is returned even on failure: raising an exception does not
undo redis writes already performed. -/

/-- An instrumentable operation, as the decorators see it. -/
abbrev Method := List PyVal → RedisState → RedisState × Except String PyVal

/-- Decorator `count_calls` (exercise.py lines 84 to 96): `INCR` the counter
keyed by the operation's qualified name, then delegate and return the
result unchanged.  A redis error from `INCR` propagates and the method is
not called. -/
def count_calls (qualname : String) (method : Method) : Method :=
  fun args st =>
    match rincr st qualname with
    | (st1, Except.error e) => (st1, Except.error e)
    | (st1, Except.ok _) => method args st1

/-- Decorator `call_history` (exercise.py lines 99 to 119): `RPUSH`
`str(args)` onto `<qualname>:inputs`, run the method, then `RPUSH` the
result onto `<qualname>:outputs` and return it.  If the method raises, the
output push does not happen but the input push already did. -/
def call_history (qualname : String) (method : Method) : Method :=
  fun args st =>
    let st1 := rpush st (qualname ++ (":inputs")) (tupleRepr args)
    match method args st1 with
    | (st2, Except.error e) => (st2, Except.error e)
    | (st2, Except.ok out) => (rpush st2 (qualname ++ (":outputs")) (serializeVal out), Except.ok out)

/-- The qualified name `Cache.store.__qualname__` used as the counter key
and the history-key stem. -/
def storeName : String := "Cache.store"

/-- The undecorated body of `Cache.store` (exercise.py lines 136 to 148):
`SET` the payload under a freshly generated UUID key and return that key.
Key generation is random; the embedding receives the fresh key as the
`fresh` parameter.  Called with anything but one positional argument,
python raises `TypeError`. -/
def store_body (fresh : String) : Method :=
  fun args st =>
    match args with
    | [d] => (rset st fresh (serializeVal d), Except.ok (PyVal.pstr fresh))
    | _ => (st, Except.error ("TypeError"))

/-- `Cache.store` as defined in the source: `store_body` wrapped by
`call_history` then `count_calls` (decorators listed bottom-up). -/
def cacheStore (fresh : String) : Method :=
  count_calls storeName (call_history storeName (store_body fresh))

/-- `Cache.__init__` (exercise.py lines 127 to 132): connect to the shared
backend and `FLUSHDB` it. -/
def cacheInit (st : RedisState) : RedisState := flushAll st

namespace Cache

/-- `Cache.get` with no conversion function: the raw bytes from `GET`, or
`None` when the key is absent. -/
def get (st : RedisState) (k : String) : Option Bytes := rget st k

/-- Python `bytes.decode("utf-8")`, the identity on our byte-string model. -/
def decode_utf8 (b : Bytes) : String := b

/-- `Cache.get_str`: `get` composed with utf-8 decoding. -/
def get_str (st : RedisState) (k : String) : Option String :=
  (get st k).map decode_utf8

/-- `Cache.get_int`: `get` composed with python `int()`, whose failure on
non-numeric bytes is a `ValueError` surfaced to the caller. -/
def get_int (st : RedisState) (k : String) : Except String (Option Int) :=
  match get st k with
  | none => Except.ok none
  | some d =>
    match parseIntStr d with
    | none => Except.error ("ValueError")
    | some n => Except.ok (some n)

end Cache

/-- `replay` (exercise.py lines 193 to 227): read the counter (absent means
zero, non-integer bytes raise `ValueError` from `int()`), read both history
lists in full, and emit a header line followed by one line per
`zip`-paired input/output entry, in list order.  It only ever issues reads
(`GET` and `LRANGE`), and returns the emitted lines. -/
def replay (st : RedisState) (qualname : String) : Except String (List String) :=
  match (match rget st qualname with
         | none => some (0 : Int)
         | some v => parseIntStr v) with
  | none => Except.error ("ValueError")
  | some c =>
    let inputs := lrangeAll st (qualname ++ (":inputs"))
    let outputs := lrangeAll st (qualname ++ (":outputs"))
    Except.ok ((qualname ++ (" was called ") ++ intToStr c ++ (" times:")) ::
      (inputs.zip outputs).map (fun p => qualname ++ ("(*") ++ p.1 ++ (") -> ") ++ p.2))

/-! ## `web.py`: the expiring fetch cache -/

/-- Python truthiness of an optional byte string: `None` and empty bytes
are falsy. -/
def pyTruthy : Option Bytes → Bool
  | none => false
  | some b => !(b == "")

/-- The cache-entry key `f"cache:{url}"` used by the wrapper. -/
def cacheKey (url : String) : String := ("cache:") ++ url

/-- The access-counter key `f"count:{url}"` used by the wrapper. -/
def countKey (url : String) : String := ("count:") ++ url

/-- Decorator `cache_with_expiration` (web.py lines 15 to 48): `INCR` the
access counter, then `GET` the cache entry; if it is truthy return it
(decoded), otherwise call the wrapped function, `SETEX` its result under
the cache key with the given expiration, and return it. -/
def cache_with_expiration (expiration : Nat)
    (func : String → RedisState → RedisState × Except String Bytes) :
    String → RedisState → RedisState × Except String Bytes :=
  fun url st =>
    match rincr st (countKey url) with
    | (st1, Except.error e) => (st1, Except.error e)
    | (st1, Except.ok _) =>
      let cached := rget st1 (cacheKey url)
      if pyTruthy cached then (st1, Except.ok (cached.getD ("")))
      else
        match func url st1 with
        | (st2, Except.error e) => (st2, Except.error e)
        | (st2, Except.ok result) => (rsetex st2 (cacheKey url) expiration result, Except.ok result)

/-- The undecorated body of `get_page` (web.py lines 62 to 68): perform the
network fetch; a `RequestException` (connection failure or bad status) is
caught and turned into the sentinel text `"Error: Unable to fetch <url>"`.
The network is the parameter `http`, mapping a URL to the fetched text or
to a `RequestException`. -/
def get_page_body (http : String → Except Unit Bytes) (url : String) : Bytes :=
  match http url with
  | Except.ok text => text
  | Except.error _ => ("Error: Unable to fetch ") ++ url

/-- The sentinel text `get_page`'s body returns when the fetch fails. -/
def errSentinel (url : String) : Bytes := ("Error: Unable to fetch ") ++ url

/-- `get_page` as defined in the source: the body wrapped by
`cache_with_expiration(expiration=10)`. -/
def get_page (http : String → Except Unit Bytes) :
    String → RedisState → RedisState × Except String Bytes :=
  cache_with_expiration 10 (fun url st => (st, Except.ok (get_page_body http url)))

/-- A list key, disjoint from every key the wrapper touches, on which an
instrumented copy of the slow operation records its invocations.  Applying
`cache_with_expiration` to this instrumented function is how "the slow
operation was (not) invoked" is made observable. -/
def slowLogKey : String := "slow:log"

/-- `get_page` with the slow operation instrumented to log each invocation
on `slowLogKey`; identical to `get_page` except for that log. -/
def get_page_logged (http : String → Except Unit Bytes) :
    String → RedisState → RedisState × Except String Bytes :=
  cache_with_expiration 10
    (fun url st => (rpush st slowLogKey url, Except.ok (get_page_body http url)))

/-- `get_access_count` (web.py lines 71 to 82): `int(count) if count else 0`
on the counter bytes. -/
def get_access_count (st : RedisState) (url : String) : Except String Int :=
  match rget st (countKey url) with
  | none => Except.ok 0
  | some v =>
    if v = "" then Except.ok 0
    else
      match parseIntStr v with
      | none => Except.error ("ValueError")
      | some n => Except.ok n

/-! ## Counter and invocation infrastructure -/

/-- The counter at key `k` reads as the integer `j`: either the key is
absent (implicit zero, the state before any increment) or it holds the
decimal rendering of `j`. -/
def counterIs (st : RedisState) (k : String) (j : Int) : Prop :=
  (j = 0 ∧ rget st k = none) ∨ rget st k = some (intToStr j)

theorem rincr_of_counterIs {st : RedisState} {k : String} {j : Int}
    (h : counterIs st k j) :
    (rincr st k).2 = Except.ok (j + 1)
    ∧ rget (rincr st k).1 k = some (intToStr (j + 1))
    ∧ (∀ k', k' ≠ k → rget (rincr st k).1 k' = rget st k')
    ∧ (∀ k', k' ≠ k → strEntry (rincr st k).1 k' = strEntry st k')
    ∧ (rincr st k).1.lists = st.lists
    ∧ (rincr st k).1.now = st.now := by
  rcases h with ⟨hj, hget⟩ | hget
  · subst hj
    simp only [rincr, hget]
    refine ⟨rfl, rget_rset_self st k (intToStr 1), ?_, ?_, rfl, rfl⟩
    · intro k' hk'
      exact rget_rset_ne st (intToStr 1) (fun he => hk' he.symm)
    · intro k' hk'
      simp [rset, strEntry, assocFind_cons_ne _ _ (fun he => hk' he.symm)]
  · have hent : ∃ e, strEntry st k = some (intToStr j, e)
        ∧ (∀ exp, e = some exp → st.now < exp) := by
      rcases hse : strEntry st k with _ | ⟨v, _ | exp⟩
      · simp [rget, hse] at hget
      · simp [rget, hse] at hget
        exact ⟨none, by rw [hget], by intro exp h; cases h⟩
      · by_cases hnow : st.now < exp
        · simp [rget, hse, hnow] at hget
          refine ⟨some exp, by rw [hget], ?_⟩
          intro e he
          injection he with he
          omega
        · simp [rget, hse, hnow] at hget
    obtain ⟨e, hse, halive⟩ := hent
    have hr : rincr st k
        = ({ st with strings := (k, intToStr (j + 1), e) :: st.strings }, Except.ok (j + 1)) := by
      simp [rincr, hget, parseIntStr_intToStr, hse]
    rw [hr]
    refine ⟨rfl, ?_, ?_, ?_, rfl, rfl⟩
    · simp only [rget, strEntry, assocFind_cons_self]
      cases e with
      | none => rfl
      | some exp => simp [halive exp rfl]
    · intro k' hk'
      simp [rget, strEntry, assocFind_cons_ne _ _ (fun he => hk' he.symm)]
    · intro k' hk'
      simp [strEntry, assocFind_cons_ne _ _ (fun he => hk' he.symm)]

theorem counterIs_rincr {st : RedisState} {k : String} {j : Int}
    (h : counterIs st k j) : counterIs (rincr st k).1 k (j + 1) :=
  Or.inr (rincr_of_counterIs h).2.1

/-- Sequential invocation of an operation: each call runs in the state the
previous one left, whether it returned or raised (a python caller looping
over calls and catching exceptions). -/
def invokeSeq (f : Method) : List (List PyVal) → RedisState → RedisState
  | [], st => st
  | a :: rest, st => invokeSeq f rest (f a st).1

/-- The serialized results of the successful calls of a sequential
invocation, in call order: the list that `call_history`-style output
recording is expected to produce. -/
def okTrace (f : Method) : List (List PyVal) → RedisState → List Bytes
  | [], _ => []
  | a :: rest, st =>
    (match (f a st).2 with
     | Except.ok v => [serializeVal v]
     | Except.error _ => []) ++ okTrace f rest (f a st).1

/-- The method leaves the value readable at key `k` unchanged. -/
def preservesKey (m : Method) (k : String) : Prop :=
  ∀ a s, rget ((m a s).1) k = rget s k

/-- The input history list of an operation identifier. -/
def histIn (st : RedisState) (q : String) : List Bytes :=
  lrangeAll st (q ++ (":inputs"))

/-- The output history list of an operation identifier. -/
def histOut (st : RedisState) (q : String) : List Bytes :=
  lrangeAll st (q ++ (":outputs"))

/-- The method leaves both history lists of identifier `q` unchanged. -/
def preservesHist (m : Method) (q : String) : Prop :=
  ∀ a s, histIn ((m a s).1) q = histIn s q ∧ histOut ((m a s).1) q = histOut s q

/-! ### Key disequalities -/

theorem string_append_inj {q a b : String} (h : q ++ a = q ++ b) : a = b := by
  have hd := congrArg String.data h
  rw [String.data_append, String.data_append] at hd
  have := List.append_cancel_left hd
  cases a; cases b
  exact congrArg String.mk this

theorem inputsKey_ne_outputsKey (q : String) : q ++ (":inputs") ≠ q ++ (":outputs") := by
  intro h
  have := string_append_inj h
  simp at this

theorem cacheKey_ne_countKey (u : String) : cacheKey u ≠ countKey u := by
  intro h
  have hd := congrArg String.data h
  rw [cacheKey, countKey, String.data_append, String.data_append] at hd
  have h1 : ("cache:").data = [Char.ofNat 99, Char.ofNat 97, Char.ofNat 99,
      Char.ofNat 104, Char.ofNat 101, Char.ofNat 58] := by decide
  have h2 : ("count:").data = [Char.ofNat 99, Char.ofNat 111, Char.ofNat 117,
      Char.ofNat 110, Char.ofNat 116, Char.ofNat 58] := by decide
  rw [h1, h2] at hd
  simp only [List.cons_append, List.cons.injEq] at hd
  exact absurd hd.2.1 (by decide)

/-! ### Further state lemmas -/

theorem rincr_rget_frame (st : RedisState) (k : String) {k' : String} (h : k' ≠ k) :
    rget (rincr st k).1 k' = rget st k' := by
  rcases hg : rget st k with _ | v
  · simp only [rincr, hg]
    exact rget_rset_ne st (intToStr 1) (fun he => h he.symm)
  · rcases hp : parseIntStr v with _ | n
    · simp [rincr, hg, hp]
    · simp only [rincr, hg, hp]
      simp [rget, strEntry, assocFind_cons_ne _ _ (fun he => h he.symm)]

theorem rincr_strEntry_frame (st : RedisState) (k : String) {k' : String} (h : k' ≠ k) :
    strEntry (rincr st k).1 k' = strEntry st k' := by
  rcases hg : rget st k with _ | v
  · simp only [rincr, hg]
    simp [rset, strEntry, assocFind_cons_ne _ _ (fun he => h he.symm)]
  · rcases hp : parseIntStr v with _ | n
    · simp [rincr, hg, hp]
    · simp only [rincr, hg, hp]
      simp [strEntry, assocFind_cons_ne _ _ (fun he => h he.symm)]

theorem rincr_lists (st : RedisState) (k : String) : (rincr st k).1.lists = st.lists := by
  rcases hg : rget st k with _ | v
  · simp [rincr, hg, rset]
  · rcases hp : parseIntStr v with _ | n
    · simp [rincr, hg, hp]
    · simp [rincr, hg, hp]

theorem rincr_now (st : RedisState) (k : String) : (rincr st k).1.now = st.now := by
  rcases hg : rget st k with _ | v
  · simp [rincr, hg, rset]
  · rcases hp : parseIntStr v with _ | n
    · simp [rincr, hg, hp]
    · simp [rincr, hg, hp]

theorem lrangeAll_of_lists_eq {st st' : RedisState} (h : st'.lists = st.lists) (k : String) :
    lrangeAll st' k = lrangeAll st k := by
  unfold lrangeAll
  rw [h]

theorem strEntry_rset_self (st : RedisState) (k : String) (v : Bytes) :
    strEntry (rset st k v) k = some (v, none) := by
  simp [rset, strEntry, assocFind_cons_self]

theorem strEntry_rset_ne (st : RedisState) {k k' : String} (v : Bytes) (h : k ≠ k') :
    strEntry (rset st k v) k' = strEntry st k' := by
  simp [rset, strEntry, assocFind_cons_ne _ _ h]

theorem strEntry_rsetex_self (st : RedisState) (k : String) (ttl : Nat) (v : Bytes) :
    strEntry (rsetex st k ttl v) k = some (v, some (st.now + ttl)) := by
  simp [rsetex, strEntry, assocFind_cons_self]

theorem strEntry_advance (st : RedisState) (t : Nat) (k : String) :
    strEntry (advanceTime st t) k = strEntry st k := rfl

theorem lists_advance (st : RedisState) (t : Nat) : (advanceTime st t).lists = st.lists := rfl

theorem rget_of_strEntry_none {st : RedisState} {k : String}
    (h : strEntry st k = some (v, none)) : rget st k = some v := by
  simp [rget, h]

theorem rget_of_strEntry_alive {st : RedisState} {k : String} {v : Bytes} {exp : Nat}
    (h : strEntry st k = some (v, some exp)) (halive : st.now < exp) : rget st k = some v := by
  simp [rget, h, halive]

/-! ### `count_calls` helper lemmas -/

theorem count_calls_delegate {q : String} (m : Method) {a : List PyVal} {st : RedisState}
    {j : Int} (h : counterIs st q j) :
    count_calls q m a st = m a (rincr st q).1 := by
  obtain ⟨h2, -, -, -, -, -⟩ := rincr_of_counterIs h
  unfold count_calls
  rcases hr : rincr st q with ⟨st1, r⟩
  rw [hr] at h2
  have h3 : r = Except.ok (j + 1) := h2
  subst h3
  rfl

theorem count_calls_counter {q : String} {m : Method} (hm : preservesKey m q)
    {a : List PyVal} {st : RedisState} {j : Int} (h : counterIs st q j) :
    rget ((count_calls q m a st).1) q = some (intToStr (j + 1)) := by
  rw [count_calls_delegate m h, hm]
  exact (rincr_of_counterIs h).2.1


theorem count_calls_seq {q : String} {m : Method} (hm : preservesKey m q) :
    ∀ (argss : List (List PyVal)) (st : RedisState) (j : Int), counterIs st q j →
      counterIs (invokeSeq (count_calls q m) argss st) q (j + argss.length) := by
  intro argss
  induction argss with
  | nil => intro st j h; simpa using h
  | cons a rest ih =>
    intro st j h
    have hstep : counterIs ((count_calls q m a st).1) q (j + 1) :=
      Or.inr (count_calls_counter hm h)
    have hrest := ih ((count_calls q m a st).1) (j + 1) hstep
    have heq : j + ((a :: rest).length : Int) = j + 1 + (rest.length : Int) := by
      push_cast [List.length_cons]
      ring
    rw [show invokeSeq (count_calls q m) (a :: rest) st
        = invokeSeq (count_calls q m) rest ((count_calls q m a st).1) from rfl, heq]
    exact hrest

/-! ### `call_history` helper lemmas -/

theorem call_history_eq_ok {q : String} {m : Method} {a : List PyVal} {st st2 : RedisState}
    {v : PyVal} (hr : m a (rpush st (q ++ (":inputs")) (tupleRepr a)) = (st2, Except.ok v)) :
    call_history q m a st = (rpush st2 (q ++ (":outputs")) (serializeVal v), Except.ok v) := by
  simp only [call_history, hr]

theorem call_history_eq_err {q : String} {m : Method} {a : List PyVal} {st st2 : RedisState}
    {e : String} (hr : m a (rpush st (q ++ (":inputs")) (tupleRepr a)) = (st2, Except.error e)) :
    call_history q m a st = (st2, Except.error e) := by
  simp only [call_history, hr]

theorem call_history_step {q : String} {m : Method} (hm : preservesHist m q)
    (a : List PyVal) (st : RedisState) :
    (histIn ((call_history q m a st).1) q = histIn st q ++ [tupleRepr a])
    ∧ (∀ v, (m a (rpush st (q ++ (":inputs")) (tupleRepr a))).2 = Except.ok v →
        histOut ((call_history q m a st).1) q = histOut st q ++ [serializeVal v]
        ∧ (call_history q m a st).2 = Except.ok v)
    ∧ (∀ e, (m a (rpush st (q ++ (":inputs")) (tupleRepr a))).2 = Except.error e →
        histOut ((call_history q m a st).1) q = histOut st q
        ∧ (call_history q m a st).2 = Except.error e) := by
  have hin1 : histIn (rpush st (q ++ (":inputs")) (tupleRepr a)) q
      = histIn st q ++ [tupleRepr a] := lrangeAll_rpush_self st _ _
  have hout1 : histOut (rpush st (q ++ (":inputs")) (tupleRepr a)) q
      = histOut st q :=
    lrangeAll_rpush_ne st _ (inputsKey_ne_outputsKey q)
  obtain ⟨hmin, hmout⟩ := hm a (rpush st (q ++ (":inputs")) (tupleRepr a))
  rcases hr : m a (rpush st (q ++ (":inputs")) (tupleRepr a)) with ⟨st2, r⟩
  rw [hr] at hmin hmout
  have hmin2 : histIn st2 q = histIn (rpush st (q ++ (":inputs")) (tupleRepr a)) q := hmin
  have hmout2 : histOut st2 q = histOut (rpush st (q ++ (":inputs")) (tupleRepr a)) q := hmout
  cases r with
  | error e =>
    have hfst : (call_history q m a st).1 = st2 := by rw [call_history_eq_err hr]
    have hsnd : (call_history q m a st).2 = Except.error e := by rw [call_history_eq_err hr]
    refine ⟨?_, ?_, ?_⟩
    · rw [hfst, hmin2, hin1]
    · intro v hv
      simp at hv
    · intro e' he
      have he2 : Except.error (α := PyVal) e = Except.error e' := he
      injection he2 with he2
      subst he2
      exact ⟨by rw [hfst, hmout2, hout1], hsnd⟩
  | ok v =>
    have hfst : (call_history q m a st).1 = rpush st2 (q ++ (":outputs")) (serializeVal v) := by
      rw [call_history_eq_ok hr]
    have hsnd : (call_history q m a st).2 = Except.ok v := by rw [call_history_eq_ok hr]
    have hinkey : ¬ (q ++ (":outputs")) = (q ++ (":inputs")) :=
      fun h => inputsKey_ne_outputsKey q h.symm
    refine ⟨?_, ?_, ?_⟩
    · rw [hfst]
      rw [show histIn (rpush st2 (q ++ (":outputs")) (serializeVal v)) q
          = lrangeAll (rpush st2 (q ++ (":outputs")) (serializeVal v)) (q ++ (":inputs")) from rfl]
      rw [lrangeAll_rpush_ne st2 _ hinkey]
      rw [show lrangeAll st2 (q ++ (":inputs")) = histIn st2 q from rfl, hmin2, hin1]
    · intro v' hv
      have hv2 : Except.ok (ε := String) v = Except.ok v' := hv
      injection hv2 with hv2
      subst hv2
      refine ⟨?_, hsnd⟩
      rw [hfst]
      rw [show histOut (rpush st2 (q ++ (":outputs")) (serializeVal v)) q
          = lrangeAll (rpush st2 (q ++ (":outputs")) (serializeVal v)) (q ++ (":outputs")) from rfl]
      rw [lrangeAll_rpush_self]
      rw [show lrangeAll st2 (q ++ (":outputs")) = histOut st2 q from rfl, hmout2, hout1]
    · intro e he
      simp at he

theorem call_history_seq {q : String} {m : Method} (hm : preservesHist m q) :
    ∀ (argss : List (List PyVal)) (st : RedisState),
      histIn (invokeSeq (call_history q m) argss st) q
        = histIn st q ++ argss.map tupleRepr
      ∧ histOut (invokeSeq (call_history q m) argss st) q
        = histOut st q ++ okTrace (call_history q m) argss st := by
  intro argss
  induction argss with
  | nil => intro st; simp [invokeSeq, okTrace]
  | cons a rest ih =>
    intro st
    obtain ⟨hstep_in, hstep_ok, hstep_err⟩ := call_history_step hm a st
    obtain ⟨ih_in, ih_out⟩ := ih ((call_history q m a st).1)
    have hseq : invokeSeq (call_history q m) (a :: rest) st
        = invokeSeq (call_history q m) rest ((call_history q m a st).1) := rfl
    constructor
    · rw [hseq, ih_in, hstep_in]
      simp
    · rw [hseq, ih_out]
      rcases hre : (m a (rpush st (q ++ (":inputs")) (tupleRepr a))).2 with e | v
      · obtain ⟨ho, hres⟩ := hstep_err e hre
        rw [ho]
        rw [show okTrace (call_history q m) (a :: rest) st
            = (match (call_history q m a st).2 with
               | Except.ok v => [serializeVal v]
               | Except.error _ => []) ++ okTrace (call_history q m) rest ((call_history q m a st).1)
            from rfl]
        rw [hres]
        simp
      · obtain ⟨ho, hres⟩ := hstep_ok v hre
        rw [ho]
        rw [show okTrace (call_history q m) (a :: rest) st
            = (match (call_history q m a st).2 with
               | Except.ok v => [serializeVal v]
               | Except.error _ => []) ++ okTrace (call_history q m) rest ((call_history q m a st).1)
            from rfl]
        rw [hres]
        simp

theorem okTrace_length_of_total {q : String} {m : Method}
    (ht : ∀ a s, ∃ v, (m a s).2 = Except.ok v) :
    ∀ (argss : List (List PyVal)) (st : RedisState),
      (okTrace (call_history q m) argss st).length = argss.length := by
  intro argss
  induction argss with
  | nil => intro st; rfl
  | cons a rest ih =>
    intro st
    obtain ⟨v, hv⟩ := ht a (rpush st (q ++ (":inputs")) (tupleRepr a))
    rcases hr : m a (rpush st (q ++ (":inputs")) (tupleRepr a)) with ⟨st2, r⟩
    rw [hr] at hv
    have h3 : r = Except.ok v := hv
    subst h3
    have hres : (call_history q m a st).2 = Except.ok v := by
      rw [call_history_eq_ok hr]
    rw [show okTrace (call_history q m) (a :: rest) st
        = (match (call_history q m a st).2 with
           | Except.ok v => [serializeVal v]
           | Except.error _ => []) ++ okTrace (call_history q m) rest ((call_history q m a st).1)
        from rfl]
    rw [hres]
    simp only [List.length_append, List.length_cons, List.length_nil, ih, List.length_cons]
    omega

/-! ### `Cache.store` closed forms -/

theorem cacheStore_eq {st : RedisState} {j : Int} (fresh : String) (d : PyVal)
    (hc : counterIs st storeName j) :
    cacheStore fresh [d] st
      = (rpush (rset (rpush (rincr st storeName).1 (storeName ++ (":inputs")) (tupleRepr [d]))
            fresh (serializeVal d)) (storeName ++ (":outputs")) fresh,
         Except.ok (PyVal.pstr fresh)) := by
  have h1 : cacheStore fresh [d] st
      = call_history storeName (store_body fresh) [d] (rincr st storeName).1 :=
    count_calls_delegate _ hc
  have hr : store_body fresh [d]
        (rpush (rincr st storeName).1 (storeName ++ (":inputs")) (tupleRepr [d]))
      = (rset (rpush (rincr st storeName).1 (storeName ++ (":inputs")) (tupleRepr [d]))
           fresh (serializeVal d), Except.ok (PyVal.pstr fresh)) := rfl
  rw [h1, call_history_eq_ok hr]
  rfl

theorem cacheStore_obs {st : RedisState} {j : Int} (fresh : String) (d : PyVal)
    (hc : counterIs st storeName j) :
    (cacheStore fresh [d] st).2 = Except.ok (PyVal.pstr fresh)
    ∧ rget (cacheStore fresh [d] st).1 fresh = some (serializeVal d)
    ∧ (fresh ≠ storeName →
        rget (cacheStore fresh [d] st).1 storeName = some (intToStr (j + 1)))
    ∧ histIn (cacheStore fresh [d] st).1 storeName = histIn st storeName ++ [tupleRepr [d]]
    ∧ histOut (cacheStore fresh [d] st).1 storeName = histOut st storeName ++ [fresh] := by
  have hcnt := (rincr_of_counterIs hc).2.1
  have hlists := rincr_lists st storeName
  rw [cacheStore_eq fresh d hc]
  refine ⟨rfl, ?_, ?_, ?_, ?_⟩
  · rw [show (rget (rpush (rset (rpush (rincr st storeName).1 (storeName ++ (":inputs"))
          (tupleRepr [d])) fresh (serializeVal d)) (storeName ++ (":outputs")) fresh,
          Except.ok (PyVal.pstr fresh)).1 fresh : Option Bytes)
        = rget (rpush (rset (rpush (rincr st storeName).1 (storeName ++ (":inputs"))
          (tupleRepr [d])) fresh (serializeVal d)) (storeName ++ (":outputs")) fresh) fresh from rfl]
    rw [rget_rpush, rget_rset_self]
  · intro hne
    rw [rget_rpush, rget_rset_ne _ _ hne, rget_rpush, hcnt]
  · rw [show histIn (rpush (rset (rpush (rincr st storeName).1 (storeName ++ (":inputs"))
          (tupleRepr [d])) fresh (serializeVal d)) (storeName ++ (":outputs")) fresh) storeName
        = lrangeAll (rpush (rset (rpush (rincr st storeName).1 (storeName ++ (":inputs"))
          (tupleRepr [d])) fresh (serializeVal d)) (storeName ++ (":outputs")) fresh)
          (storeName ++ (":inputs")) from rfl]
    rw [lrangeAll_rpush_ne _ _ (fun hh => inputsKey_ne_outputsKey storeName hh.symm)]
    rw [lrangeAll_rset, lrangeAll_rpush_self, lrangeAll_of_lists_eq hlists]
    rfl
  · rw [show histOut (rpush (rset (rpush (rincr st storeName).1 (storeName ++ (":inputs"))
          (tupleRepr [d])) fresh (serializeVal d)) (storeName ++ (":outputs")) fresh) storeName
        = lrangeAll (rpush (rset (rpush (rincr st storeName).1 (storeName ++ (":inputs"))
          (tupleRepr [d])) fresh (serializeVal d)) (storeName ++ (":outputs")) fresh)
          (storeName ++ (":outputs")) from rfl]
    rw [lrangeAll_rpush_self, lrangeAll_rset,
      lrangeAll_rpush_ne _ _ (inputsKey_ne_outputsKey storeName),
      lrangeAll_of_lists_eq hlists]
    rfl

theorem cacheStore_rget_frame (fresh : String) (d : PyVal) (st : RedisState) {k : String}
    (h1 : k ≠ fresh) (h2 : k ≠ storeName) :
    rget (cacheStore fresh [d] st).1 k = rget st k := by
  unfold cacheStore count_calls
  rcases hr : rincr st storeName with ⟨st1, r⟩
  have hfr : rget st1 k = rget st k := by
    have h := rincr_rget_frame st storeName h2
    rw [hr] at h
    exact h
  cases r with
  | error e => simpa using hfr
  | ok n =>
    have he : call_history storeName (store_body fresh) [d] st1
        = (rpush (rset (rpush st1 (storeName ++ (":inputs")) (tupleRepr [d]))
            fresh (serializeVal d)) (storeName ++ (":outputs")) fresh,
           Except.ok (PyVal.pstr fresh)) := call_history_eq_ok rfl
    rw [show ((match (st1, Except.ok (ε := String) n) with
        | (st1, Except.error e) => (st1, Except.error e)
        | (st1, Except.ok _) => call_history storeName (store_body fresh) [d] st1) :
          RedisState × Except String PyVal)
        = call_history storeName (store_body fresh) [d] st1 from rfl]
    rw [he, show (rpush (rset (rpush st1 (storeName ++ (":inputs")) (tupleRepr [d]))
            fresh (serializeVal d)) (storeName ++ (":outputs")) fresh,
           Except.ok (PyVal.pstr fresh)).1
        = rpush (rset (rpush st1 (storeName ++ (":inputs")) (tupleRepr [d]))
            fresh (serializeVal d)) (storeName ++ (":outputs")) fresh from rfl]
    rw [rget_rpush, rget_rset_ne _ _ (fun hh => h1 hh.symm), rget_rpush, hfr]

theorem cacheStore_lists_append (fresh : String) (d : PyVal) (st : RedisState) (h : String) :
    ∃ tl, lrangeAll (cacheStore fresh [d] st).1 h = lrangeAll st h ++ tl := by
  unfold cacheStore count_calls
  rcases hr : rincr st storeName with ⟨st1, r⟩
  have hl : st1.lists = st.lists := by
    have hx := rincr_lists st storeName
    rw [hr] at hx
    exact hx
  have hfr : lrangeAll st1 h = lrangeAll st h := lrangeAll_of_lists_eq hl h
  cases r with
  | error e => exact ⟨[], by simpa using hfr⟩
  | ok n =>
    have he : call_history storeName (store_body fresh) [d] st1
        = (rpush (rset (rpush st1 (storeName ++ (":inputs")) (tupleRepr [d]))
            fresh (serializeVal d)) (storeName ++ (":outputs")) fresh,
           Except.ok (PyVal.pstr fresh)) := call_history_eq_ok rfl
    rw [show ((match (st1, Except.ok (ε := String) n) with
        | (st1, Except.error e) => (st1, Except.error e)
        | (st1, Except.ok _) => call_history storeName (store_body fresh) [d] st1) :
          RedisState × Except String PyVal)
        = call_history storeName (store_body fresh) [d] st1 from rfl]
    rw [he, show (rpush (rset (rpush st1 (storeName ++ (":inputs")) (tupleRepr [d]))
            fresh (serializeVal d)) (storeName ++ (":outputs")) fresh,
           Except.ok (PyVal.pstr fresh)).1
        = rpush (rset (rpush st1 (storeName ++ (":inputs")) (tupleRepr [d]))
            fresh (serializeVal d)) (storeName ++ (":outputs")) fresh from rfl]
    by_cases hout : h = storeName ++ (":outputs")
    · subst hout
      refine ⟨[fresh], ?_⟩
      rw [lrangeAll_rpush_self, lrangeAll_rset,
        lrangeAll_rpush_ne _ _ (inputsKey_ne_outputsKey storeName), hfr]
    · rw [lrangeAll_rpush_ne _ _ (fun hh => hout hh.symm), lrangeAll_rset]
      by_cases hin : h = storeName ++ (":inputs")
      · subst hin
        exact ⟨[tupleRepr [d]], by rw [lrangeAll_rpush_self, hfr]⟩
      · exact ⟨[], by rw [lrangeAll_rpush_ne _ _ (fun hh => hin hh.symm), hfr]; simp⟩

/-! ### `cache_with_expiration` closed forms -/

theorem wrapper_hit {expiration : Nat}
    {func : String → RedisState → RedisState × Except String Bytes}
    {url : String} {st : RedisState} {j : Int} {b : Bytes}
    (hc : counterIs st (countKey url) j)
    (hcache : rget st (cacheKey url) = some b) (hb : ¬ b = "") :
    cache_with_expiration expiration func url st
      = ((rincr st (countKey url)).1, Except.ok b) := by
  obtain ⟨h2, -, hfr, -, -, -⟩ := rincr_of_counterIs hc
  have hcache1 : rget (rincr st (countKey url)).1 (cacheKey url) = some b := by
    rw [hfr (cacheKey url) (cacheKey_ne_countKey url), hcache]
  rcases hr : rincr st (countKey url) with ⟨st1, r⟩
  rw [hr] at h2 hcache1
  have h3 : r = Except.ok (j + 1) := h2
  subst h3
  have hcache2 : rget st1 (cacheKey url) = some b := hcache1
  have htr : pyTruthy (rget st1 (cacheKey url)) = true := by
    rw [hcache2]
    simp [pyTruthy, hb]
  simp only [cache_with_expiration, hr, htr, if_true]
  rw [hcache2]
  rfl

theorem wrapper_miss_ok {expiration : Nat}
    {func : String → RedisState → RedisState × Except String Bytes}
    {url : String} {st : RedisState} {j : Int} {st2 : RedisState} {v : Bytes}
    (hc : counterIs st (countKey url) j)
    (hmiss : pyTruthy (rget st (cacheKey url)) = false)
    (hfunc : func url (rincr st (countKey url)).1 = (st2, Except.ok v)) :
    cache_with_expiration expiration func url st
      = (rsetex st2 (cacheKey url) expiration v, Except.ok v) := by
  obtain ⟨h2, -, hfr, -, -, -⟩ := rincr_of_counterIs hc
  have hmiss1 : pyTruthy (rget (rincr st (countKey url)).1 (cacheKey url)) = false := by
    rw [hfr (cacheKey url) (cacheKey_ne_countKey url)]
    exact hmiss
  rcases hr : rincr st (countKey url) with ⟨st1, r⟩
  rw [hr] at h2 hmiss1 hfunc
  have h3 : r = Except.ok (j + 1) := h2
  subst h3
  have hmiss2 : pyTruthy (rget st1 (cacheKey url)) = false := hmiss1
  have hfunc2 : func url st1 = (st2, Except.ok v) := hfunc
  simp only [cache_with_expiration, hr, hmiss2, Bool.false_eq_true, if_false, hfunc2]

/-! ### Last helpers and witness-support definitions -/

theorem intToStr_ne_empty (n : Int) : ¬ intToStr n = "" := by
  intro h
  have hd := congrArg String.data h
  cases n with
  | ofNat m =>
    obtain ⟨d, cs, hdata, -⟩ := natToStr_head m
    have hd2 : (natToStr m).data = [] := hd
    rw [hdata] at hd2
    cases hd2
  | negSucc m =>
    have hd2 : Char.ofNat 45 :: (natToStr (m + 1)).data = [] := hd
    cases hd2

theorem get_access_count_of_counter {st : RedisState} {url : String} {n : Int}
    (h : rget st (countKey url) = some (intToStr n)) :
    get_access_count st url = Except.ok n := by
  simp only [get_access_count, h, if_neg (intToStr_ne_empty n), parseIntStr_intToStr]

theorem pyTruthy_true_elim {o : Option Bytes} (h : pyTruthy o = true) :
    ∃ b, o = some b ∧ ¬ b = "" := by
  cases o with
  | none => simp [pyTruthy] at h
  | some b =>
    refine ⟨b, rfl, ?_⟩
    simp [pyTruthy] at h
    exact h

/-- An operation that always raises: used to observe that the counting
wrapper still increments when the wrapped operation fails. -/
def alwaysFail : Method := fun _ st => (st, Except.error ("RuntimeError"))

/-- An operation that always returns the same value and touches no state:
used to exercise the history wrapper on completed calls. -/
def constMethod : Method := fun _ st => (st, Except.ok (PyVal.pstr ("r")))

/-- A backend state with a counter of 2 but three recorded inputs and only
two recorded outputs, exercising the truncating pairing of `replay`. -/
def replaySampleState : RedisState :=
  ⟨0, [(("f"), ("2"), none)],
    [(("f:inputs"), [("(1,)"), ("(2,)"), ("(3,)")]), (("f:outputs"), [("a"), ("b")])]⟩

/-- Modelled from the spec: boolean prefix test on character lists, used
only to state the spec's documented key-naming variants. -/
def isPrefixList : List Char → List Char → Bool
  | [], _ => true
  | _ :: _, [] => false
  | a :: as, b :: bs => a == b && isPrefixList as bs

/-- Modelled from the spec: the spec's documented fetch-cache key variants
for a resource identifier — the raw identifier itself, the
`"cached:" + identifier` form, or `"cached:" + hex(sha256(identifier))`.
Every sha256-hex string begins with the literal prefix `"cached:"` in that
last form, so membership in the documented family is implied by (and here
weakened to) carrying that prefix, which only strengthens a negative
result. -/
def specFetchCacheKeyOk (url k : String) : Bool :=
  k == url || k == ("cached:") ++ url || isPrefixList (("cached:").data) k.data

/-! ## Claims about the object store (`exercise.py`) -/

/-- Claim C1, counterexample: `retrieve(store(p)) == p` with no coercion
fails for an integer payload.  Storing the python `int` 123 writes the
bytes `b"123"`; `get` with no conversion function returns those raw bytes,
and the bytes value `b"123"` is not the integer 123. -/
theorem store_roundtrip_no_coercion_counterexample :
    (Cache.get ((cacheStore ("k0") [PyVal.pint 123] (cacheInit RedisState.empty)).1) ("k0")).map
      PyVal.pbytes = some (PyVal.pbytes ("123"))
    ∧ PyVal.pbytes ("123") ≠ PyVal.pint 123 := by
  constructor
  · decide
  · decide

/-- Claim C1, amended: after `store(p)` on a freshly constructed cache,
`get` of the returned key yields the backend byte encoding of `p` (the
payload written verbatim).  That equals `p` itself exactly when `p` is a
byte sequence; a text payload is recovered by `get_str` and an integer
payload by `get_int` (the coercions the code itself pairs with those
types), not by a bare `get`. -/
theorem store_roundtrip_amended (st : RedisState) (fresh : String) (d : PyVal)
    (b s : String) (n : Int) :
    (cacheStore fresh [d] (cacheInit st)).2 = Except.ok (PyVal.pstr fresh)
    ∧ Cache.get (cacheStore fresh [d] (cacheInit st)).1 fresh = some (serializeVal d)
    ∧ (Cache.get (cacheStore fresh [PyVal.pbytes b] (cacheInit st)).1 fresh).map PyVal.pbytes
        = some (PyVal.pbytes b)
    ∧ Cache.get_str (cacheStore fresh [PyVal.pstr s] (cacheInit st)).1 fresh = some s
    ∧ Cache.get_int (cacheStore fresh [PyVal.pint n] (cacheInit st)).1 fresh
        = Except.ok (some n) := by
  have hc0 : counterIs (cacheInit st) storeName 0 := Or.inl ⟨rfl, rfl⟩
  refine ⟨(cacheStore_obs fresh d hc0).1, (cacheStore_obs fresh d hc0).2.1, ?_, ?_, ?_⟩
  · rw [show Cache.get (cacheStore fresh [PyVal.pbytes b] (cacheInit st)).1 fresh
        = rget (cacheStore fresh [PyVal.pbytes b] (cacheInit st)).1 fresh from rfl]
    rw [(cacheStore_obs fresh (PyVal.pbytes b) hc0).2.1]
    rfl
  · rw [show Cache.get_str (cacheStore fresh [PyVal.pstr s] (cacheInit st)).1 fresh
        = (rget (cacheStore fresh [PyVal.pstr s] (cacheInit st)).1 fresh).map Cache.decode_utf8
        from rfl]
    rw [(cacheStore_obs fresh (PyVal.pstr s) hc0).2.1]
    rfl
  · have hg := (cacheStore_obs fresh (PyVal.pint n) hc0).2.1
    simp only [Cache.get_int, Cache.get, hg, serializeVal, parseIntStr_intToStr]

/-- Claim C3: the counting wrapper.  For a wrapped operation that does not
itself touch the counter key, (i) `n` sequential invocations from an absent
counter leave the counter at exactly `n` — with no assumption that any
invocation succeeded, so failed calls count; (ii) the wrapper increments
first and then delegates, returning the wrapped operation's state and
result unchanged; (iii) after any single invocation the counter reads one
more than before, whether or not the wrapped operation failed. -/
theorem count_calls_spec (q : String) (m : Method) (hm : preservesKey m q) :
    (∀ (argss : List (List PyVal)) (st : RedisState), counterIs st q 0 → argss ≠ [] →
        rget (invokeSeq (count_calls q m) argss st) q = some (intToStr (argss.length : Int)))
    ∧ (∀ a st j, counterIs st q j → count_calls q m a st = m a (rincr st q).1)
    ∧ (∀ a st j, counterIs st q j →
        rget ((count_calls q m a st).1) q = some (intToStr (j + 1))) := by
  refine ⟨?_, ?_, ?_⟩
  · intro argss st h0 hne
    have h := count_calls_seq hm argss st 0 h0
    rcases h with ⟨hz, -⟩ | hs
    · have hlen : argss.length = 0 := by omega
      exact absurd (List.length_eq_zero.mp hlen) hne
    · simpa using hs
  · intro a st j h
    exact count_calls_delegate m h
  · intro a st j h
    exact count_calls_counter hm h

/-- Claim C3 witness: two invocations of an always-failing wrapped
operation still drive the counter from absent to 2. -/
theorem count_calls_spec_witness :
    rget (invokeSeq (count_calls ("f") alwaysFail) [[], []] RedisState.empty) ("f")
      = some (intToStr (([[], []] : List (List PyVal)).length : Int)) :=
  (count_calls_spec ("f") alwaysFail (fun _ _ => rfl)).1 [[], []] RedisState.empty
    (Or.inl ⟨rfl, rfl⟩) (by decide)

/-- Claim C4: the history wrapper.  With a wrapped operation that does not
itself touch the two history lists: (i) a sequential run appends the
serialized positional arguments of every call, in order, to the input list,
and the serialized result of every successful call, in order, to the output
list; (ii) when every call completes, both lists grown from empty have
length `n` after `n` calls; (iii) a completed call appends its input entry
and then its output entry and returns the result unchanged; (iv) a failing
call appends its input entry but no output entry, and re-raises. -/
theorem call_history_spec (q : String) (m : Method) (hm : preservesHist m q) :
    (∀ argss st,
        histIn (invokeSeq (call_history q m) argss st) q = histIn st q ++ argss.map tupleRepr
        ∧ histOut (invokeSeq (call_history q m) argss st) q
            = histOut st q ++ okTrace (call_history q m) argss st)
    ∧ (∀ argss st, (∀ a s, ∃ v, (m a s).2 = Except.ok v) →
        histIn st q = [] → histOut st q = [] →
        (histIn (invokeSeq (call_history q m) argss st) q).length = argss.length
        ∧ (histOut (invokeSeq (call_history q m) argss st) q).length = argss.length)
    ∧ (∀ a st v, (m a (rpush st (q ++ (":inputs")) (tupleRepr a))).2 = Except.ok v →
        histIn ((call_history q m a st).1) q = histIn st q ++ [tupleRepr a]
        ∧ histOut ((call_history q m a st).1) q = histOut st q ++ [serializeVal v]
        ∧ (call_history q m a st).2 = Except.ok v)
    ∧ (∀ a st e, (m a (rpush st (q ++ (":inputs")) (tupleRepr a))).2 = Except.error e →
        histIn ((call_history q m a st).1) q = histIn st q ++ [tupleRepr a]
        ∧ histOut ((call_history q m a st).1) q = histOut st q
        ∧ (call_history q m a st).2 = Except.error e) := by
  refine ⟨fun argss st => call_history_seq hm argss st, ?_, ?_, ?_⟩
  · intro argss st ht hin hout
    obtain ⟨h1, h2⟩ := call_history_seq hm argss st
    rw [hin] at h1
    rw [hout] at h2
    constructor
    · rw [h1]
      simp
    · rw [h2]
      simp [okTrace_length_of_total ht argss st]
  · intro a st v hv
    obtain ⟨h1, h2, -⟩ := call_history_step hm a st
    obtain ⟨ho, hr⟩ := h2 v hv
    exact ⟨h1, ho, hr⟩
  · intro a st e he
    obtain ⟨h1, -, h3⟩ := call_history_step hm a st
    obtain ⟨ho, hr⟩ := h3 e he
    exact ⟨h1, ho, hr⟩

/-- Claim C4 witness: three completed calls on a history-wrapped constant
operation leave input and output lists of length 3. -/
theorem call_history_spec_witness :
    (histIn (invokeSeq (call_history ("f") constMethod)
        [[PyVal.pstr ("a")], [PyVal.pint 1], []] RedisState.empty) ("f")).length = 3
    ∧ (histOut (invokeSeq (call_history ("f") constMethod)
        [[PyVal.pstr ("a")], [PyVal.pint 1], []] RedisState.empty) ("f")).length = 3 :=
  (call_history_spec ("f") constMethod (fun _ _ => ⟨rfl, rfl⟩)).2.1
    [[PyVal.pstr ("a")], [PyVal.pint 1], []] RedisState.empty
    (fun _ _ => ⟨PyVal.pstr ("r"), rfl⟩) rfl rfl

/-- Claim C6: `replay` reads the counter (absent means zero) and the two
history lists, mutates nothing (its embedding consumes the state and
returns only text), and emits the header
`"<operation> was called <count> times:"` followed by one
`"<operation>(*<args>) -> <result>"` line per `zip`-paired entry in
original order; with lists of different lengths it emits exactly
`min` pairs and silently drops the rest instead of raising. -/
theorem replay_format_spec (st : RedisState) (q : String) (c : Int)
    (hc : (rget st q = none ∧ c = 0) ∨ rget st q = some (intToStr c)) :
    replay st q = Except.ok ((q ++ (" was called ") ++ intToStr c ++ (" times:")) ::
        ((histIn st q).zip (histOut st q)).map
          (fun p => q ++ ("(*") ++ p.1 ++ (") -> ") ++ p.2))
    ∧ (∀ L, replay st q = Except.ok L →
        L.length = 1 + min (histIn st q).length (histOut st q).length
        ∧ (∀ i a b, (histIn st q)[i]? = some a → (histOut st q)[i]? = some b →
            L[i + 1]? = some (q ++ ("(*") ++ a ++ (") -> ") ++ b))
        ∧ (∀ i, min (histIn st q).length (histOut st q).length ≤ i → L[i + 1]? = none)) := by
  have hmain : replay st q
      = Except.ok ((q ++ (" was called ") ++ intToStr c ++ (" times:")) ::
          ((histIn st q).zip (histOut st q)).map
            (fun p => q ++ ("(*") ++ p.1 ++ (") -> ") ++ p.2)) := by
    rcases hc with ⟨hn, hc0⟩ | hs
    · subst hc0
      simp only [replay, hn]
      rfl
    · simp only [replay, hs, parseIntStr_intToStr]
      rfl
  refine ⟨hmain, ?_⟩
  intro L hL
  rw [hmain] at hL
  injection hL with hL
  subst hL
  refine ⟨?_, ?_, ?_⟩
  · simp [List.length_zip]
    omega
  · intro i a b ha hb
    rw [List.getElem?_cons_succ, List.getElem?_map]
    have hz : ((histIn st q).zip (histOut st q))[i]? = some (a, b) := by
      rw [List.getElem?_zip_eq_some]
      exact ⟨ha, hb⟩
    rw [hz]
    rfl
  · intro i hi
    rw [List.getElem?_cons_succ]
    apply List.getElem?_eq_none
    simp [List.length_zip]
    omega

/-- Claim C6 witness: on a state with three recorded inputs and two
recorded outputs, `replay` succeeds and pairs only the first two entries. -/
theorem replay_format_spec_witness :
    replay replaySampleState ("f")
      = Except.ok ((("f") ++ (" was called ") ++ intToStr 2 ++ (" times:")) ::
          ((histIn replaySampleState ("f")).zip (histOut replaySampleState ("f"))).map
            (fun p => ("f") ++ ("(*") ++ p.1 ++ (") -> ") ++ p.2)) :=
  (replay_format_spec replaySampleState ("f") 2 (Or.inr (by decide))).1

/-- Claim C7, counterexample: the instrumentation shares the key space of
stored payloads, so a key never returned by `store` need not read as
absent.  After one `store` on a fresh cache — whose only returned key is
`"k0"` — `get("Cache.store")` returns the counter bytes `b"1"`, not an
absent result (the code's own harness relies on exactly this read). -/
theorem get_unknown_key_counterexample :
    (cacheStore ("k0") [PyVal.pbytes ("x")] (cacheInit RedisState.empty)).2
        = Except.ok (PyVal.pstr ("k0"))
    ∧ Cache.get ((cacheStore ("k0") [PyVal.pbytes ("x")] (cacheInit RedisState.empty)).1)
        ("Cache.store") = some ("1")
    ∧ ("Cache.store" : String) ≠ ("k0") := by
  refine ⟨rfl, by decide, by decide⟩

/-- Claim C7, amended: `get` of any key on a freshly constructed store is
an explicit absent result, and `store` leaves every key other than its own
fresh key and the instrumentation counter key reading as before — so a key
never returned by `store` and distinct from the instrumentation keys stays
absent, without an error.  When a key does exist, a supplied coercion is
applied and its failure (non-numeric bytes coerced by `int`) surfaces to
the caller as an error rather than being swallowed; an absent key stays an
absent result under both coercions. -/
theorem get_absent_amended (st : RedisState) (k : String) :
    Cache.get (cacheInit st) k = none
    ∧ (∀ fresh d, k ≠ fresh → k ≠ storeName →
        Cache.get ((cacheStore fresh [d] st).1) k = Cache.get st k)
    ∧ (∀ d, Cache.get st k = some d → parseIntStr d = none →
        Cache.get_int st k = Except.error ("ValueError"))
    ∧ (Cache.get st k = none →
        Cache.get_int st k = Except.ok none ∧ Cache.get_str st k = none) := by
  refine ⟨rfl, ?_, ?_, ?_⟩
  · intro fresh d h1 h2
    exact cacheStore_rget_frame fresh d st h1 h2
  · intro d hd hp
    simp only [Cache.get_int, hd, hp]
  · intro hnone
    constructor
    · simp only [Cache.get_int, hnone]
    · simp only [Cache.get_str, hnone, Option.map_none']

/-- Claim C7 witness: coercing the stored non-numeric bytes `b"bar"` with
`get_int` surfaces the conversion error. -/
theorem get_absent_amended_witness :
    Cache.get_int (rset RedisState.empty ("kk") ("bar")) ("kk")
      = Except.error ("ValueError") :=
  (get_absent_amended (rset RedisState.empty ("kk") ("bar")) ("kk")).2.2.1 ("bar")
    (by decide) (by decide)

/-- Claim C8, counterexample: constructing the object store is a core
operation that deletes every stored value — `Cache.__init__` calls
`FLUSHDB` itself.  A payload stored under `"k0"` is readable until a second
construction runs, after which the binding is gone. -/
theorem constructor_flush_counterexample :
    Cache.get ((cacheStore ("k0") [PyVal.pbytes ("hello")] (cacheInit RedisState.empty)).1)
        ("k0") = some ("hello")
    ∧ Cache.get (cacheInit
        ((cacheStore ("k0") [PyVal.pbytes ("hello")] (cacheInit RedisState.empty)).1))
        ("k0") = none := by
  refine ⟨by decide, by decide⟩

/-- Claim C8, amended: `store` deletes nothing — every key other than its
fresh key and its counter key reads as before, the counter is incremented
(never deleted), and every backend list at most gains appended entries,
so prior history entries keep their positions; `get`, `get_str`, `get_int`
and `replay` are reads by construction.  Construction, however, flushes
the whole backend (the constructor itself calls `FLUSHDB`, so the flush is
not confined to the external test harness): after `Cache.__init__` every
key reads as absent. -/
theorem core_never_deletes_amended (st : RedisState) (fresh : String) (d : PyVal)
    (k : String) (j : Int) :
    (k ≠ fresh → k ≠ storeName → rget (cacheStore fresh [d] st).1 k = rget st k)
    ∧ (counterIs st storeName j → fresh ≠ storeName →
        rget (cacheStore fresh [d] st).1 storeName = some (intToStr (j + 1)))
    ∧ (∀ h, ∃ tl, lrangeAll (cacheStore fresh [d] st).1 h = lrangeAll st h ++ tl)
    ∧ rget (cacheInit st) k = none := by
  refine ⟨?_, ?_, ?_, rfl⟩
  · intro h1 h2
    exact cacheStore_rget_frame fresh d st h1 h2
  · intro hc hne
    exact ((cacheStore_obs fresh d hc).2.2.1) hne
  · intro h
    exact cacheStore_lists_append fresh d st h

/-- Claim C8 witness: a store on the empty backend leaves the counter key
bound (incremented from absent to 1), not deleted. -/
theorem core_never_deletes_amended_witness :
    rget (cacheStore ("k0") [PyVal.pbytes ("x")] RedisState.empty).1 storeName
      = some (intToStr (0 + 1)) :=
  (core_never_deletes_amended RedisState.empty ("k0") (PyVal.pbytes ("x")) ("z") 0).2.1
    (Or.inl ⟨rfl, rfl⟩) (by decide)

/-! ## Claims about the expiring fetch cache (`web.py`) -/

/-- Claim C2, counterexample: a failing underlying fetch does not propagate
and a cache entry IS written.  With the network failing on `"u"`,
`get_page` returns the ordinary (non-error) sentinel string
`"Error: Unable to fetch u"` — the body catches the `RequestException` —
and the wrapper then caches that sentinel under `"cache:u"` with the TTL.
Only the claim's no-rollback part holds: the access counter reads 1. -/
theorem fetch_failure_counterexample :
    (get_page (fun _ => Except.error ()) ("u") RedisState.empty).2
        = Except.ok (("Error: Unable to fetch ") ++ ("u"))
    ∧ rget ((get_page (fun _ => Except.error ()) ("u") RedisState.empty).1)
        (("cache:") ++ ("u")) = some (("Error: Unable to fetch ") ++ ("u"))
    ∧ get_access_count (get_page (fun _ => Except.error ()) ("u") RedisState.empty).1 ("u")
        = Except.ok 1 := by
  refine ⟨rfl, by decide, rfl⟩

/-- Claim C2, amended: when the underlying network fetch fails, `get_page`
catches the failure inside its own body and returns the sentinel string
`"Error: Unable to fetch <url>"` as an ordinary result; the wrapper writes
that sentinel into the cache entry with the TTL; and the access-counter
increment performed at the start of the call is kept, not rolled back. -/
theorem fetch_failure_amended (http : String → Except Unit Bytes) (url : String)
    (st : RedisState) (j : Int)
    (herr : http url = Except.error ())
    (hc : counterIs st (countKey url) j)
    (hmiss : pyTruthy (rget st (cacheKey url)) = false) :
    (get_page http url st).2 = Except.ok (errSentinel url)
    ∧ rget (get_page http url st).1 (cacheKey url) = some (errSentinel url)
    ∧ rget (get_page http url st).1 (countKey url) = some (intToStr (j + 1)) := by
  have hbody : get_page_body http url = errSentinel url := by
    simp [get_page_body, herr, errSentinel]
  have heq : get_page http url st
      = (rsetex (rincr st (countKey url)).1 (cacheKey url) 10 (get_page_body http url),
         Except.ok (get_page_body http url)) :=
    wrapper_miss_ok hc hmiss rfl
  rw [heq, hbody]
  refine ⟨rfl, ?_, ?_⟩
  · exact rget_rsetex_self _ _ _ (by omega)
  · rw [rget_rsetex_ne _ _ _ (cacheKey_ne_countKey url)]
    exact (rincr_of_counterIs hc).2.1

/-- Claim C2 witness: the amended failure semantics at the concrete
failing fetch of `"u"` from the empty backend. -/
theorem fetch_failure_amended_witness :
    (get_page (fun _ => Except.error ()) ("u") RedisState.empty).2
        = Except.ok (errSentinel ("u"))
    ∧ rget (get_page (fun _ => Except.error ()) ("u") RedisState.empty).1 (cacheKey ("u"))
        = some (errSentinel ("u"))
    ∧ rget (get_page (fun _ => Except.error ()) ("u") RedisState.empty).1 (countKey ("u"))
        = some (intToStr (0 + 1)) :=
  fetch_failure_amended (fun _ => Except.error ()) ("u") RedisState.empty 0 rfl
    (Or.inl ⟨rfl, rfl⟩) rfl

/-- Claim C9, counterexample: the cache-entry key the code uses is
`"cache:" + url` — not the raw identifier, not `"cached:" + url`, and not
any `"cached:"`-prefixed hash form, so it is none of the spec's documented
variants.  After a miss on `"u"` the payload sits under `"cache:u"` while
the documented candidate keys are unwritten. -/
theorem fetch_key_scheme_counterexample :
    rget ((get_page (fun _ => Except.ok ("page")) ("u") RedisState.empty).1)
        (("cache:") ++ ("u")) = some ("page")
    ∧ specFetchCacheKeyOk ("u") (("cache:") ++ ("u")) = false
    ∧ rget ((get_page (fun _ => Except.ok ("page")) ("u") RedisState.empty).1) ("u") = none
    ∧ rget ((get_page (fun _ => Except.ok ("page")) ("u") RedisState.empty).1)
        (("cached:") ++ ("u")) = none := by
  refine ⟨by decide, by decide, by decide, by decide⟩

/-- Claim C9, amended: the wrapper keys the cache entry at
`"cache:" + identifier` and the access counter at `"count:" + identifier`,
and these are held fixed: a `get_page` call touches no string key other
than those two, no list key, and not the clock. -/
theorem fetch_keys_amended (http : String → Except Unit Bytes) (url : String)
    (st : RedisState) :
    cacheKey url = ("cache:") ++ url
    ∧ countKey url = ("count:") ++ url
    ∧ (∀ k, k ≠ cacheKey url → k ≠ countKey url →
        strEntry (get_page http url st).1 k = strEntry st k)
    ∧ (get_page http url st).1.lists = st.lists
    ∧ (get_page http url st).1.now = st.now := by
  have main : (∀ k, k ≠ cacheKey url → k ≠ countKey url →
        strEntry (get_page http url st).1 k = strEntry st k)
      ∧ (get_page http url st).1.lists = st.lists
      ∧ (get_page http url st).1.now = st.now := by
    simp only [get_page, cache_with_expiration]
    rcases hr : rincr st (countKey url) with ⟨st1, r⟩
    have hfr : ∀ x, x ≠ countKey url → strEntry st1 x = strEntry st x := by
      intro x hx
      have h := rincr_strEntry_frame st (countKey url) hx
      rw [hr] at h
      exact h
    have hl1 : st1.lists = st.lists := by
      have h := rincr_lists st (countKey url)
      rw [hr] at h
      exact h
    have hn1 : st1.now = st.now := by
      have h := rincr_now st (countKey url)
      rw [hr] at h
      exact h
    cases r with
    | error e => exact ⟨fun k hck hnk => hfr k hnk, hl1, hn1⟩
    | ok n =>
      cases htr : pyTruthy (rget st1 (cacheKey url)) with
      | true =>
        simp only [htr, if_true]
        exact ⟨fun k hck hnk => hfr k hnk, hl1, hn1⟩
      | false =>
        simp only [htr, Bool.false_eq_true, if_false]
        refine ⟨fun k hck hnk => ?_, ?_, ?_⟩
        · show strEntry (rsetex st1 (cacheKey url) 10 (get_page_body http url)) k
              = strEntry st k
          rw [strEntry_rsetex_ne _ _ _ (Ne.symm hck)]
          exact hfr k hnk
        · show (rsetex st1 (cacheKey url) 10 (get_page_body http url)).lists = st.lists
          rw [show (rsetex st1 (cacheKey url) 10 (get_page_body http url)).lists
              = st1.lists from rfl]
          exact hl1
        · show (rsetex st1 (cacheKey url) 10 (get_page_body http url)).now = st.now
          rw [now_rsetex]
          exact hn1
  exact ⟨rfl, rfl, main.1, main.2.1, main.2.2⟩

/-- Claim C9 witness: a fetch of `"u"` leaves an unrelated key untouched. -/
theorem fetch_keys_amended_witness :
    strEntry ((get_page (fun _ => Except.ok ("p")) ("u") RedisState.empty).1) ("zz")
      = strEntry RedisState.empty ("zz") :=
  (fetch_keys_amended (fun _ => Except.ok ("p")) ("u") RedisState.empty).2.2.1 ("zz")
    (by decide) (by decide)

/-- Claim C10: a present cache entry holding the empty byte string is
treated as absent — the hit test is python truthiness, not presence.  On
such a state a fetch still increments the counter, takes the miss branch,
invokes the underlying slow operation again (its invocation log grows),
returns the freshly fetched payload and overwrites the cache entry with
it; the empty payload is never served from the cache. -/
theorem empty_cache_entry_refetch (http : String → Except Unit Bytes) (url : String)
    (st : RedisState) (j : Int)
    (h1 : rget st (cacheKey url) = some (""))
    (hc : counterIs st (countKey url) j) :
    (get_page_logged http url st).2 = Except.ok (get_page_body http url)
    ∧ lrangeAll (get_page_logged http url st).1 slowLogKey
        = lrangeAll st slowLogKey ++ [url]
    ∧ rget (get_page_logged http url st).1 (cacheKey url) = some (get_page_body http url)
    ∧ rget (get_page_logged http url st).1 (countKey url) = some (intToStr (j + 1)) := by
  have hmiss : pyTruthy (rget st (cacheKey url)) = false := by
    rw [h1]
    rfl
  have heq : get_page_logged http url st
      = (rsetex (rpush (rincr st (countKey url)).1 slowLogKey url) (cacheKey url) 10
          (get_page_body http url), Except.ok (get_page_body http url)) :=
    wrapper_miss_ok hc hmiss rfl
  rw [heq]
  refine ⟨rfl, ?_, ?_, ?_⟩
  · rw [show (rsetex (rpush (rincr st (countKey url)).1 slowLogKey url) (cacheKey url) 10
          (get_page_body http url), Except.ok (ε := String) (get_page_body http url)).1
        = rsetex (rpush (rincr st (countKey url)).1 slowLogKey url) (cacheKey url) 10
          (get_page_body http url) from rfl]
    rw [lrangeAll_rsetex, lrangeAll_rpush_self,
      lrangeAll_of_lists_eq (rincr_lists st (countKey url))]
  · exact rget_rsetex_self _ _ _ (by omega)
  · rw [rget_rsetex_ne _ _ _ (cacheKey_ne_countKey url), rget_rpush]
    exact (rincr_of_counterIs hc).2.1

/-- Claim C10 witness: with `"cache:u"` holding empty bytes (as a fetch of
an empty page leaves it), a fetch within the TTL invokes the slow
operation again. -/
theorem empty_cache_entry_refetch_witness :
    lrangeAll ((get_page_logged (fun _ => Except.ok ("p")) ("u")
        (rset RedisState.empty (cacheKey ("u")) (""))).1) slowLogKey
      = lrangeAll (rset RedisState.empty (cacheKey ("u")) ("")) slowLogKey ++ [("u")] :=
  (empty_cache_entry_refetch (fun _ => Except.ok ("p")) ("u")
    (rset RedisState.empty (cacheKey ("u")) ("")) 0 (by decide) (Or.inl ⟨rfl, by decide⟩)).2.1

/-- Claim C5, counterexample: the hit test is truthiness, not presence.
After fetching a page whose text is empty, the cache entry for `"u"` is
present (readable, unexpired), yet a second fetch within the TTL does not
take the hit branch: the slow operation's invocation log grows to two
entries, contradicting "if a cache entry is present, ... the underlying
slow operation is not invoked". -/
theorem fetch_present_hit_counterexample :
    rget ((get_page_logged (fun _ => Except.ok ("")) ("u") RedisState.empty).1)
        (cacheKey ("u")) = some ("")
    ∧ lrangeAll ((get_page_logged (fun _ => Except.ok ("")) ("u")
        ((get_page_logged (fun _ => Except.ok ("")) ("u") RedisState.empty).1)).1)
        slowLogKey = [("u"), ("u")] := by
  refine ⟨by decide, by decide⟩

/-- Claim C5, amended: every `fetch` call increments the access counter
unconditionally before the cache lookup; if a cache entry with a truthy
(nonempty) payload is present, that payload is returned at once, nothing
else is written, and the slow operation is not invoked; on a miss the slow
operation runs, its result is cached with the TTL and returned.  Hence, for
a fresh resource whose fetched payload is nonempty: the first call makes
the counter 1, invokes the slow operation exactly once and caches its
result; a second call within the TTL makes the counter 2, does not invoke
the slow operation again, and returns a payload identical to the first
call's. -/
theorem fetch_memoize_amended :
    (∀ (http : String → Except Unit Bytes) (url : String) (st : RedisState) (j : Int),
        counterIs st (countKey url) j →
        rget (get_page_logged http url st).1 (countKey url) = some (intToStr (j + 1)))
    ∧ (∀ (http : String → Except Unit Bytes) (url : String) (st : RedisState) (j : Int)
          (b : Bytes), counterIs st (countKey url) j →
        rget st (cacheKey url) = some b → ¬ b = "" →
        get_page_logged http url st = ((rincr st (countKey url)).1, Except.ok b))
    ∧ (∀ (http : String → Except Unit Bytes) (url : String) (st : RedisState) (t : Nat),
        rget st (cacheKey url) = none → rget st (countKey url) = none →
        lrangeAll st slowLogKey = [] → ¬ get_page_body http url = "" → t < 10 →
        (get_page_logged http url st).2 = Except.ok (get_page_body http url)
        ∧ get_access_count (get_page_logged http url st).1 url = Except.ok 1
        ∧ lrangeAll (get_page_logged http url st).1 slowLogKey = [url]
        ∧ rget (get_page_logged http url st).1 (cacheKey url)
            = some (get_page_body http url)
        ∧ (get_page_logged http url
            (advanceTime (get_page_logged http url st).1 t)).2
            = Except.ok (get_page_body http url)
        ∧ get_access_count (get_page_logged http url
            (advanceTime (get_page_logged http url st).1 t)).1 url = Except.ok 2
        ∧ lrangeAll (get_page_logged http url
            (advanceTime (get_page_logged http url st).1 t)).1 slowLogKey = [url]) := by
  refine ⟨?_, ?_, ?_⟩
  · intro http url st j hc
    cases htr : pyTruthy (rget st (cacheKey url)) with
    | true =>
      obtain ⟨b, hb, hbne⟩ := pyTruthy_true_elim htr
      have heq : get_page_logged http url st
          = ((rincr st (countKey url)).1, Except.ok b) := wrapper_hit hc hb hbne
      rw [heq]
      exact (rincr_of_counterIs hc).2.1
    | false =>
      have heq : get_page_logged http url st
          = (rsetex (rpush (rincr st (countKey url)).1 slowLogKey url) (cacheKey url) 10
              (get_page_body http url), Except.ok (get_page_body http url)) :=
        wrapper_miss_ok hc htr rfl
      rw [heq]
      rw [show (rsetex (rpush (rincr st (countKey url)).1 slowLogKey url) (cacheKey url) 10
            (get_page_body http url), Except.ok (ε := String) (get_page_body http url)).1
          = rsetex (rpush (rincr st (countKey url)).1 slowLogKey url) (cacheKey url) 10
            (get_page_body http url) from rfl]
      rw [rget_rsetex_ne _ _ _ (cacheKey_ne_countKey url), rget_rpush]
      exact (rincr_of_counterIs hc).2.1
  · intro http url st j b hc hb hbne
    exact wrapper_hit hc hb hbne
  · intro http url st t hck hnk hlog hbody ht
    have hc0 : counterIs st (countKey url) 0 := Or.inl ⟨rfl, hnk⟩
    have hmiss : pyTruthy (rget st (cacheKey url)) = false := by
      rw [hck]
      rfl
    have hincr : rincr st (countKey url) = (rset st (countKey url) (intToStr 1), Except.ok 1) := by
      simp [rincr, hnk]
    have heq1 : get_page_logged http url st
        = (rsetex (rpush (rincr st (countKey url)).1 slowLogKey url) (cacheKey url) 10
            (get_page_body http url), Except.ok (get_page_body http url)) :=
      wrapper_miss_ok hc0 hmiss rfl
    have hS1c : rget (rsetex (rpush (rincr st (countKey url)).1 slowLogKey url)
          (cacheKey url) 10 (get_page_body http url)) (countKey url)
        = some (intToStr 1) := by
      rw [rget_rsetex_ne _ _ _ (cacheKey_ne_countKey url), rget_rpush]
      have h := (rincr_of_counterIs hc0).2.1
      simpa using h
    have hacc1 : get_access_count (get_page_logged http url st).1 url = Except.ok 1 := by
      rw [heq1]
      exact get_access_count_of_counter hS1c
    have hlog1 : lrangeAll (get_page_logged http url st).1 slowLogKey = [url] := by
      rw [heq1]
      rw [show (rsetex (rpush (rincr st (countKey url)).1 slowLogKey url) (cacheKey url) 10
            (get_page_body http url), Except.ok (ε := String) (get_page_body http url)).1
          = rsetex (rpush (rincr st (countKey url)).1 slowLogKey url) (cacheKey url) 10
            (get_page_body http url) from rfl]
      rw [lrangeAll_rsetex, lrangeAll_rpush_self,
        lrangeAll_of_lists_eq (rincr_lists st (countKey url)), hlog]
      simp
    have hcache1 : rget (get_page_logged http url st).1 (cacheKey url)
        = some (get_page_body http url) := by
      rw [heq1]
      exact rget_rsetex_self _ _ _ (by omega)
    have hE : strEntry (advanceTime (get_page_logged http url st).1 t) (cacheKey url)
        = some (get_page_body http url, some (st.now + 10)) := by
      rw [heq1]
      rw [strEntry_advance, strEntry_rsetex_self, now_rpush, rincr_now]
    have hnowA : (advanceTime (get_page_logged http url st).1 t).now = st.now + t := by
      rw [heq1]
      rw [show (advanceTime (rsetex (rpush (rincr st (countKey url)).1 slowLogKey url)
            (cacheKey url) 10 (get_page_body http url)) t).now
          = (rsetex (rpush (rincr st (countKey url)).1 slowLogKey url) (cacheKey url) 10
            (get_page_body http url)).now + t from rfl]
      rw [now_rsetex, now_rpush, rincr_now]
    have hget2 : rget (advanceTime (get_page_logged http url st).1 t) (cacheKey url)
        = some (get_page_body http url) :=
      rget_of_strEntry_alive hE (by rw [hnowA]; omega)
    have hcounter2 : rget (advanceTime (get_page_logged http url st).1 t) (countKey url)
        = some (intToStr 1) := by
      apply rget_of_strEntry_none
      rw [heq1]
      rw [strEntry_advance,
        strEntry_rsetex_ne _ _ _ (cacheKey_ne_countKey url), strEntry_rpush, hincr]
      rw [show ((rset st (countKey url) (intToStr 1), Except.ok (ε := String) (1 : Int)).1 :
            RedisState) = rset st (countKey url) (intToStr 1) from rfl]
      exact strEntry_rset_self st (countKey url) (intToStr 1)
    have hc1 : counterIs (advanceTime (get_page_logged http url st).1 t) (countKey url) 1 :=
      Or.inr hcounter2
    have heq2 : get_page_logged http url (advanceTime (get_page_logged http url st).1 t)
        = ((rincr (advanceTime (get_page_logged http url st).1 t) (countKey url)).1,
           Except.ok (get_page_body http url)) :=
      wrapper_hit hc1 hget2 hbody
    refine ⟨by rw [heq1], hacc1, hlog1, hcache1, by rw [heq2], ?_, ?_⟩
    · rw [heq2]
      have h2 := get_access_count_of_counter ((rincr_of_counterIs hc1).2.1)
      norm_num at h2
      exact h2
    · rw [heq2]
      rw [show ((rincr (advanceTime (get_page_logged http url st).1 t) (countKey url)).1,
            Except.ok (ε := String) (get_page_body http url)).1
          = (rincr (advanceTime (get_page_logged http url st).1 t) (countKey url)).1 from rfl]
      rw [lrangeAll_of_lists_eq
        (rincr_lists (advanceTime (get_page_logged http url st).1 t) (countKey url))]
      rw [lrangeAll_of_lists_eq (lists_advance (get_page_logged http url st).1 t)]
      exact hlog1

/-- Claim C5 witness: the two-call memoization scenario for a nonempty
page fetched at `"u"` from the empty backend, with the second call 3 time
units later (inside the 10-unit TTL). -/
theorem fetch_memoize_amended_witness :
    (get_page_logged (fun _ => Except.ok ("page")) ("u") RedisState.empty).2
        = Except.ok (get_page_body (fun _ => Except.ok ("page")) ("u"))
    ∧ get_access_count
        (get_page_logged (fun _ => Except.ok ("page")) ("u") RedisState.empty).1 ("u")
        = Except.ok 1
    ∧ lrangeAll (get_page_logged (fun _ => Except.ok ("page")) ("u") RedisState.empty).1
        slowLogKey = [("u")]
    ∧ rget (get_page_logged (fun _ => Except.ok ("page")) ("u") RedisState.empty).1
        (cacheKey ("u")) = some (get_page_body (fun _ => Except.ok ("page")) ("u"))
    ∧ (get_page_logged (fun _ => Except.ok ("page")) ("u")
        (advanceTime (get_page_logged (fun _ => Except.ok ("page")) ("u")
          RedisState.empty).1 3)).2
        = Except.ok (get_page_body (fun _ => Except.ok ("page")) ("u"))
    ∧ get_access_count (get_page_logged (fun _ => Except.ok ("page")) ("u")
        (advanceTime (get_page_logged (fun _ => Except.ok ("page")) ("u")
          RedisState.empty).1 3)).1 ("u") = Except.ok 2
    ∧ lrangeAll (get_page_logged (fun _ => Except.ok ("page")) ("u")
        (advanceTime (get_page_logged (fun _ => Except.ok ("page")) ("u")
          RedisState.empty).1 3)).1 slowLogKey = [("u")] :=
  fetch_memoize_amended.2.2 (fun _ => Except.ok ("page")) ("u") RedisState.empty 3
    rfl rfl rfl (by decide) (by decide)
